import Mathlib

/-!
Verification of the TennisNow listing-normalization core: the WebTrac
time-slot recognizer and HTML listing parsers
(`crawler/WebTrac/parse_webtrac_listing.py`), the table/card fallback
assembler (`crawler/WebTrac/fetch_schedule.py`), the JSON date-grouping
(`crawler/Xplor/xplor_schedule_fetcher.py`), and the venue-matching
heuristic (`crawler/enrich_with_places.py`).

HTML documents are embedded as already-parsed DOM trees (the Python code
receives its DOM from BeautifulSoup; the HTML tokenizer itself is outside
the verified core).  JSON payloads are embedded as a `Json` inductive.
Floating-point numbers are modelled as real numbers.
-/

/-! ## Basic character and string utilities (Python semantics) -/


/-- ASCII decimal digit, the `\d` class of the source regexes restricted to
ASCII inputs. -/
def isDig (c : Char) : Bool := '0' ≤ c ∧ c ≤ '9'

/-- Python whitespace (`str.strip` / regex `\s`, ASCII part):
space, tab, newline, carriage return, vertical tab, form feed. -/
def isPyWs (c : Char) : Bool :=
  c = ' ' ∨ c = '\t' ∨ c = '\n' ∨ c = '\x0d' ∨ c = '\x0b' ∨ c = '\x0c'

/-- Lower-case a character (ASCII), as Python `str.lower` on ASCII text. -/
def lcc (c : Char) : Char := Char.toLower c

/-- Lower-case a string character-wise. -/
def lowerStr (s : String) : String := String.mk (s.data.map lcc)

/-- `beginsWith needle hay` holds when `needle` is an initial segment of `hay`. -/
def beginsWith : List Char → List Char → Bool
  | [], _ => true
  | _ :: _, [] => false
  | a :: as, b :: bs => a = b && beginsWith as bs

/-- `hasSub needle hay`: `needle` occurs contiguously inside `hay`
(Python `needle in hay` on strings). -/
def hasSub (needle : List Char) : List Char → Bool
  | [] => needle.isEmpty
  | c :: rest => beginsWith needle (c :: rest) || hasSub needle rest

/-- Python `needle in hay` (substring containment). -/
def strContains (hay needle : String) : Bool := hasSub needle.data hay.data

/-- Case-insensitive substring containment (regex with `re.I`, `re.search`). -/
def strContainsCI (hay needle : String) : Bool :=
  hasSub (lowerStr needle).data (lowerStr hay).data

/-- Drop leading Python whitespace. -/
def dropLeadWs (cs : List Char) : List Char := cs.dropWhile isPyWs

/-- Drop trailing Python whitespace. -/
def dropTrailWs (cs : List Char) : List Char := (cs.reverse.dropWhile isPyWs).reverse

/-- Python `str.strip()`. -/
def pyStrip (s : String) : String := String.mk (dropTrailWs (dropLeadWs s.data))

/-- Split a character list on runs of whitespace into non-empty tokens
(the splitting BeautifulSoup applies to multi-valued `class` attributes). -/
def wsTokensAux : List Char → List Char → List (List Char)
  | [], acc => if acc.isEmpty then [] else [acc.reverse]
  | c :: cs, acc =>
    if isPyWs c then
      if acc.isEmpty then wsTokensAux cs [] else acc.reverse :: wsTokensAux cs []
    else wsTokensAux cs (c :: acc)

/-- Whitespace-split a string into tokens. -/
def wsTokens (s : String) : List String := (wsTokensAux s.data []).map String.mk

/-- Concatenate a list of strings. -/
def strConcat (ss : List String) : String := ss.foldr (· ++ ·) ""

/-- Join strings with single spaces, Python `" ".join(...)`. -/
def joinSp : List String → String
  | [] => ""
  | [s] => s
  | s :: rest => s ++ " " ++ joinSp rest

/-- Concatenate a list of lists. -/
def concatAll {α : Type} (xss : List (List α)) : List α := xss.foldr (· ++ ·) []

/-! ## The time-slot recognizer

`TIME_RE = re.compile(r"\b\d{1,2}:\d{2}\s*(?:am|pm)\s*-\s*\d{1,2}:\d{2}\s*(?:am|pm)\b", re.I)`
used via `TIME_RE.fullmatch(text)`.  For a full match the two `\b` anchors are
automatically satisfied (the adjacent characters are a digit and an `m`), and
the regex is deterministic (each quantified class is disjoint from what
follows), so it is equivalent to the following maximal-munch scanner. -/


/-- Consume one or two digits (`\d{1,2}` followed by a non-digit context). -/
def eatD2 : List Char → Option (List Char)
  | [] => none
  | c :: rest =>
    if isDig c then
      match rest with
      | c2 :: rest2 => if isDig c2 then some rest2 else some rest
      | [] => some []
    else none

/-- Consume one expected literal character. -/
def eatChar (x : Char) : List Char → Option (List Char)
  | [] => none
  | c :: rest => if c = x then some rest else none

/-- Consume one digit (`\d`). -/
def eatDig : List Char → Option (List Char)
  | [] => none
  | c :: rest => if isDig c then some rest else none

/-- Consume `\s*`. -/
def eatWs (cs : List Char) : List Char := cs.dropWhile isPyWs

/-- Consume `(?:am|pm)` case-insensitively. -/
def eatAmPm : List Char → Option (List Char)
  | c1 :: c2 :: rest =>
    if (lcc c1 = 'a' ∨ lcc c1 = 'p') ∧ lcc c2 = 'm' then some rest else none
  | _ => none

/-- Consume one endpoint `\d{1,2}:\d{2}\s*(?:am|pm)`. -/
def matchSide (cs : List Char) : Option (List Char) :=
  ((((eatD2 cs).bind (eatChar ':')).bind eatDig).bind eatDig).bind
    (fun r => eatAmPm (eatWs r))

/-- `TIME_RE.fullmatch` on a character list: one endpoint, `\\s*`, the
hyphen, `\\s*`, the second endpoint, then end of input. -/
def timeFullmatchL (cs : List Char) : Bool :=
  ((((matchSide cs).map eatWs).bind (eatChar '-')).map eatWs).bind matchSide
    == some ([] : List Char)

/-- The recognizer's full-match predicate: `TIME_RE.fullmatch(s)` is truthy. -/
def TIME_RE_fullmatch (s : String) : Bool := timeFullmatchL s.data

/-! ## The slot grammar of spec §3 and supporting lemmas for C2 -/


/-- Decimal digit character for a digit value (values above 9 clamp to '9';
they are never used). -/
def digitChar : Nat → Char
  | 0 => '0' | 1 => '1' | 2 => '2' | 3 => '3' | 4 => '4'
  | 5 => '5' | 6 => '6' | 7 => '7' | 8 => '8' | _ => '9'

/-- Render an hour 1..12 with one or two digits. -/
def hourChars (h : Nat) : List Char :=
  if h < 10 then [digitChar h] else '1' :: [digitChar (h - 10)]

/-- Render a minute 0..59 with exactly two digits. -/
def minChars (m : Nat) : List Char := [digitChar (m / 10), digitChar (m % 10)]

/-- The case variants of `am` / `pm`. -/
def ampmForms : List String := ["am", "aM", "Am", "AM", "pm", "pM", "Pm", "PM"]

/-- A string of exact form `H:MM am|pm - H:MM am|pm` with single spaces
around the hyphen and before the suffix. -/
def slotForm (h1 m1 : Nat) (a1 : String) (h2 m2 : Nat) (a2 : String) : String :=
  String.mk (hourChars h1 ++ ':' :: (minChars m1 ++ ' ' :: (a1.data
    ++ ' ' :: '-' :: ' ' :: (hourChars h2 ++ ':' :: (minChars m2 ++ ' ' :: a2.data)))))

/-- A character list ends (ignoring trailing whitespace) in `am` or `pm`,
case-insensitively. -/
def endsAmPm (cs : List Char) : Bool :=
  match cs.reverse.dropWhile isPyWs with
  | m :: a :: _ => lcc m = 'm' ∧ (lcc a = 'a' ∨ lcc a = 'p')
  | [m] => lcc m = 'm' ∧ False
  | [] => false

/-! ## DOM embedding

HTML documents reach the parsers as BeautifulSoup trees; we embed the tree
(elements with a tag, attributes and children, plus text nodes).  The
document argument is the synthetic root whose descendants are searched by
`soup.find` / `soup.select`. -/

mutual
inductive Dom : Type where
  | elem : String → List (String × String) → DomList → Dom
  | text : String → Dom
inductive DomList : Type where
  | nil : DomList
  | cons : Dom → DomList → DomList
end

mutual
def Dom.descendants : Dom → List Dom
  | .text _ => []
  | .elem _ _ cs => DomList.descList cs
def DomList.descList : DomList → List Dom
  | .nil => []
  | .cons d ds => d :: d.descendants ++ ds.descList
end

mutual
def Dom.strings : Dom → List String
  | .text s => [s]
  | .elem _ _ cs => DomList.stringsList cs
def DomList.stringsList : DomList → List String
  | .nil => []
  | .cons d ds => d.strings ++ ds.stringsList
end

def DomList.toList : DomList → List Dom
  | .nil => []
  | .cons d ds => d :: ds.toList

def Dom.children : Dom → List Dom
  | .text _ => []
  | .elem _ _ cs => cs.toList

def Dom.tag? : Dom → Option String
  | .elem t _ _ => some t
  | .text _ => none

def Dom.attr? : Dom → String → Option String
  | .elem _ attrs _, k => (attrs.find? (fun kv => kv.1 = k)).map Prod.snd
  | .text _, _ => none

/-- `element.get(key, default)`. -/
def Dom.attrD (d : Dom) (k dflt : String) : String := (d.attr? k).getD dflt

/-- BeautifulSoup `get_text(strip=True)`: every descendant string stripped,
then concatenated. -/
def Dom.getTextStripped (d : Dom) : String := strConcat (d.strings.map pyStrip)

/-- Token list of the `class` attribute (BeautifulSoup splits multi-valued
attributes on whitespace). -/
def Dom.classList (d : Dom) : List String := wsTokens (d.attrD "class" "")

/-- `" ".join(element.get("class", [])).lower()`. -/
def Dom.classesJoined (d : Dom) : String := lowerStr (joinSp d.classList)

/-- First descendant satisfying a predicate (`find`, document order). -/
def Dom.findFirst? (d : Dom) (p : Dom → Bool) : Option Dom := d.descendants.find? p

/-- All descendants satisfying a predicate (`select` with a one-step
selector, document order). -/
def Dom.selectAll (d : Dom) (p : Dom → Bool) : List Dom := d.descendants.filter p

/-- Matches of a CSS descendant-combinator chain, used for `select_one`: the
first element of this list is the document-order-first chain match. -/
def selChain : List (Dom → Bool) → Dom → List Dom
  | [], _ => []
  | [p], d => d.selectAll p
  | p :: ps, d => concatAll ((d.selectAll p).map (selChain ps))

/-! ## `parse_webtrac_listing.py` -/


/-- Extract group 1 of `re.search(r"[?&]FMID=(\d+)", href)`: after the first
`?` or `&` followed by `FMID=` and at least one digit, the maximal digit
run. -/
def fmidScan : List Char → Option String
  | [] => none
  | c :: rest =>
    if c = '?' ∨ c = '&' then
      if beginsWith ['F', 'M', 'I', 'D', '='] rest then
        let ds := (rest.drop 5).takeWhile isDig
        if ds.isEmpty then fmidScan rest else some (String.mk ds)
      else fmidScan rest
    else fmidScan rest

def fmidSearch (href : String) : Option String := fmidScan href.data

/-- One output record of either listing normalizer. -/
structure FacilityRec where
  fmid : Option String
  label : Option String
  location : Option String
  available_slots : List String
  unavailable_slots : List String
deriving DecidableEq, Inhabited

/-- Python truthiness of an optional string: `None` and `""` are falsy. -/
def pyFalsyS : Option String → Bool
  | none => true
  | some s => s = ""

/-- Selector `a.cart-button`. -/
def isCartButton (d : Dom) : Bool := d.tag? = some "a" ∧ "cart-button" ∈ d.classList

def cartButtonsOf (d : Dom) : List Dom := d.selectAll isCartButton

def spansOf (a : Dom) : List Dom := a.selectAll (fun d => d.tag? = some "span")

/-- The available test of the slot-classification loop:
`"success" in classes and "book now" in tooltip`, on the lower-cased joined
class string and lower-cased `data-tooltip`. -/
def availGateB (a : Dom) : Bool :=
  strContains a.classesJoined "success" &&
    strContains (lowerStr (a.attrD "data-tooltip" "")) "book now"

/-- The unavailable test: `"error" in classes and "unavailable" in tooltip`. -/
def errGateB (a : Dom) : Bool :=
  strContains a.classesJoined "error" &&
    strContains (lowerStr (a.attrD "data-tooltip" "")) "unavailable"

/-- The slot-classification loop shared verbatim by the two parsers
(`for a in ... .select("a.cart-button")`): a success/book-now anchor
contributes its own stripped text to the available list; otherwise (`elif`)
an error/unavailable anchor contributes its first descendant span's text to
the unavailable list; in both cases only when `TIME_RE.fullmatch` accepts
the text. -/
def classifySlots : List Dom → List String × List String
  | [] => ([], [])
  | a :: rest =>
    let prev := classifySlots rest
    if availGateB a then
      (if TIME_RE_fullmatch a.getTextStripped then
        (a.getTextStripped :: prev.1, prev.2)
       else prev)
    else if errGateB a then
      (match spansOf a with
       | [] => prev
       | s :: _ =>
         if TIME_RE_fullmatch s.getTextStripped then
           (prev.1, s.getTextStripped :: prev.2)
         else prev)
    else prev

/-- Slots a single anchor contributes to the available list. -/
def contribAvail (a : Dom) : List String :=
  if availGateB a then
    (if TIME_RE_fullmatch a.getTextStripped then [a.getTextStripped] else [])
  else []

/-- Slots a single anchor contributes to the unavailable list. -/
def contribUnavail (a : Dom) : List String :=
  if availGateB a then []
  else if errGateB a then
    (match spansOf a with
     | [] => []
     | s :: _ =>
       if TIME_RE_fullmatch s.getTextStripped then [s.getTextStripped] else [])
  else []

def findOutputTable (doc : Dom) : Option Dom :=
  doc.findFirst? (fun d => d.tag? = some "table" ∧
    d.attr? "id" = some "frwebsearch_output_table")

def findTbody (table : Dom) : Option Dom :=
  table.findFirst? (fun d => d.tag? = some "tbody")

def labelCells (row : Dom) : List Dom :=
  row.selectAll (fun d => d.tag? = some "td" ∧ "label-cell" ∈ d.classList)

/-- The facility/location extraction loop over label cells: first truthy
occurrence wins (`if title == ... and not facility`). -/
def pickLabelsStep (st : Option String × Option String) (td : Dom) :
    Option String × Option String :=
  let title := td.attrD "data-title" ""
  if title = "Facility Description" ∧ pyFalsyS st.1 then
    (some td.getTextStripped, st.2)
  else if title = "Location Description" ∧ pyFalsyS st.2 then
    (st.1, some td.getTextStripped)
  else st

def pickLabels (tds : List Dom) : Option String × Option String :=
  tds.foldl pickLabelsStep (none, none)

/-- `row.find("a", href=re.compile(r"iteminfo\.html\?", re.I))` then
`re.search(r"[?&]FMID=(\d+)", href)`. -/
def rowFmid (row : Dom) : Option String :=
  match row.findFirst? (fun d => d.tag? = some "a" ∧
      ((match d.attr? "href" with
        | some h => strContainsCI h "iteminfo.html?"
        | none => false) = true)) with
  | some link =>
    match link.attr? "href" with
    | some h => fmidSearch h
    | none => none
  | none => none

/-- One facility block: the label-cell row plus the (optional) adjacent
slot-action row. -/
def buildTableRec (row : Dom) (cart? : Option Dom) : FacilityRec :=
  let fl := pickLabels (labelCells row)
  let slots :=
    match cart? with
    | some cart => classifySlots (cartButtonsOf cart)
    | none => ([], [])
  { fmid := rowFmid row, label := fl.1, location := fl.2,
    available_slots := slots.1, unavailable_slots := slots.2 }

/-- The row loop: rows without label cells are skipped one at a time; a
label-cell row consumes itself and the following row as a pair. -/
def tableRows : List Dom → List FacilityRec
  | [] => []
  | row :: rest =>
    if (labelCells row).isEmpty then tableRows rest
    else
      match rest with
      | [] => [buildTableRec row none]
      | cart :: rest2 => buildTableRec row (some cart) :: tableRows rest2

/-- `tbody.find_all("tr", recursive=False)`. -/
def childTr (tbody : Dom) : List Dom :=
  tbody.children.filter (fun d => d.tag? = some "tr")

def parse_listing_table_schedules (doc : Dom) : List FacilityRec :=
  match findOutputTable doc with
  | none => []
  | some table =>
    match findTbody table with
    | none => []
    | some tbody => tableRows (childTr tbody)

/-- `card.select_one('.header.result-header .result-header__info h2 span')`. -/
def headerSpanSel (card : Dom) : Option Dom :=
  (selChain
    [fun d => "header" ∈ d.classList ∧ "result-header" ∈ d.classList,
     fun d => "result-header__info" ∈ d.classList,
     fun d => d.tag? = some "h2",
     fun d => d.tag? = some "span"] card).head?

/-- `card.select_one('a[href*="iteminfo.html?"][href*="FMID="]')` then FMID
extraction (case-sensitive substring tests). -/
def cardFmid (card : Dom) : Option String :=
  match card.findFirst? (fun d => d.tag? = some "a" ∧
      ((match d.attr? "href" with
        | some h => strContains h "iteminfo.html?" && strContains h "FMID="
        | none => false) = true)) with
  | some link =>
    match link.attr? "href" with
    | some h => fmidSearch h
    | none => none
  | none => none

def buildCardRec (card : Dom) : FacilityRec :=
  let label :=
    match headerSpanSel card with
    | some h => if h.getTextStripped = "" then none else some h.getTextStripped
    | none => none
  let location :=
    match card.findFirst? (fun d => d.tag? = some "td" ∧
        d.attr? "data-title" = some "Location Description") with
    | some td => some td.getTextStripped
    | none => none
  let slots := classifySlots (cartButtonsOf card)
  { fmid := cardFmid card, label := label, location := location,
    available_slots := slots.1, unavailable_slots := slots.2 }

def parse_listing_group_schedules (doc : Dom) : List FacilityRec :=
  match doc.findFirst?
      (fun d => d.attr? "id" = some "frwebsearch_nextgencontrolsgroup") with
  | none => []
  | some container =>
    (container.selectAll (fun d => "result-content" ∈ d.classList)).map
      buildCardRec

/-- The parsing portion of `fetch_schedule` (`fetch_schedule.py` lines
413-416): the table parser is preferred, the group parser is the fallback;
this is the facility list before date/source tagging. -/
def fetch_schedule_items (doc : Dom) : List FacilityRec :=
  let items := parse_listing_table_schedules doc
  if items.isEmpty then parse_listing_group_schedules doc else items

/-! ## Concrete documents for the end-to-end claims -/


/-- Success anchor: class `success`, tooltip `Book Now`, visible text
`8:00 am - 9:00 am`. -/
def c1SuccessAnchor : Dom :=
  .elem "a" [("class", "cart-button success"), ("data-tooltip", "Book Now")]
    (.cons (.text "8:00 am - 9:00 am") .nil)

/-- Error anchor: class `error`, tooltip `Unavailable`, first child span
`9:00 am - 10:00 am`. -/
def c1ErrorAnchor : Dom :=
  .elem "a" [("class", "cart-button error"), ("data-tooltip", "Unavailable")]
    (.cons (.elem "span" [] (.cons (.text "9:00 am - 10:00 am") .nil)) .nil)

/-- Facility row: `Facility Description` label cell and a details link
carrying `FMID=296964`. -/
def c1FacilityRow : Dom :=
  .elem "tr" []
    (.cons
      (.elem "td" [("class", "label-cell"), ("data-title", "Facility Description")]
        (.cons (.text "Laguna Park Court 1") .nil))
      (.cons
        (.elem "td" []
          (.cons (.elem "a" [("href", "iteminfo.html?Module=FR&FMID=296964")] .nil)
            .nil))
        .nil))

def c1SlotRow : Dom :=
  .elem "tr" [] (.cons c1SuccessAnchor (.cons c1ErrorAnchor .nil))

/-- The C1 scenario document: one facility row immediately followed by one
slot row inside the results table. -/
def c1Doc : Dom :=
  .elem "[document]" []
    (.cons
      (.elem "table" [("id", "frwebsearch_output_table")]
        (.cons (.elem "tbody" [] (.cons c1FacilityRow (.cons c1SlotRow .nil))) .nil))
      .nil)

/-! ## C3: the disjointness claim fails on the code -/


/-- A slot row whose success anchor and error-anchor span carry the same
time text. -/
def c3SlotRow : Dom :=
  .elem "tr" []
    (.cons
      (.elem "a" [("class", "cart-button success"), ("data-tooltip", "Book Now")]
        (.cons (.text "8:00 am - 9:00 am") .nil))
      (.cons
        (.elem "a" [("class", "cart-button error"), ("data-tooltip", "Unavailable")]
          (.cons (.elem "span" [] (.cons (.text "8:00 am - 9:00 am") .nil)) .nil))
        .nil))

def c3FacilityRow : Dom :=
  .elem "tr" []
    (.cons
      (.elem "td" [("class", "label-cell"), ("data-title", "Facility Description")]
        (.cons (.text "Laguna Park Court 2") .nil))
      .nil)

/-- A document on which the same slot string lands in both lists of one
record. -/
def c3Doc : Dom :=
  .elem "[document]" []
    (.cons
      (.elem "table" [("id", "frwebsearch_output_table")]
        (.cons (.elem "tbody" [] (.cons c3FacilityRow (.cons c3SlotRow .nil))) .nil))
      .nil)

/-- An anchor carrying both the success/book-now and the error/unavailable
signals; its class token list also contains `error` and its tooltip also
contains `unavailable`. -/
def c9BothAnchor : Dom :=
  .elem "a"
    [("class", "cart-button success error"),
     ("data-tooltip", "Book Now Unavailable")]
    (.cons (.text "8:00 am - 9:00 am") .nil)

/-- A document with no results table at all. -/
def c4NoTableDoc : Dom := .elem "[document]" [] (.cons (.elem "div" [] .nil) .nil)

/-- A results table with no `tbody`. -/
def c4BareTable : Dom := .elem "table" [("id", "frwebsearch_output_table")] .nil

def c4NoTbodyDoc : Dom := .elem "[document]" [] (.cons c4BareTable .nil)

/-! ## Computable string order (Python string comparison) -/


/-- Code-point lexicographic strict order on character lists. -/
def lexLt : List Char → List Char → Bool
  | [], [] => false
  | [], _ :: _ => true
  | _ :: _, [] => false
  | a :: as, b :: bs => if a < b then true else if a = b then lexLt as bs else false

/-- Code-point lexicographic order on character lists. -/
def lexLe : List Char → List Char → Bool
  | [], _ => true
  | _ :: _, [] => false
  | a :: as, b :: bs => if a < b then true else if a = b then lexLe as bs else false

def strLtB (a b : String) : Bool := lexLt a.data b.data

/-- Python `c in s` for a single character. -/
def strHasChar (s : String) (c : Char) : Bool := s.data.any (fun x => x = c)

/-! ## JSON embedding and the Xplor date-grouping
(`xplor_schedule_fetcher.py`, `parse_schedule_data`)

The function returns `Option Json`: `none` models a raised `TypeError`
(non-iterable shapes the Python code would crash on); every path the
claims exercise is a `some`. -/

inductive Json : Type where
  | null : Json
  | str : String → Json
  | num : Int → Json
  | bool : Bool → Json
  | arr : List Json → Json
  | obj : List (String × Json) → Json

def getKV : List (String × Json) → String → Option Json
  | [], _ => none
  | (k, v) :: rest, key => if k = key then some v else getKV rest key

def hasKey (kvs : List (String × Json)) (key : String) : Bool :=
  (getKV kvs key).isSome

/-- Python `"error" in schedule_data` over the possible payload shapes:
key lookup on a dict, element equality on a list, substring on a string,
`TypeError` (`none`) otherwise. -/
def errorCheck : Json → Option Bool
  | .obj kvs => some (hasKey kvs "error")
  | .arr xs =>
    some (xs.any fun v => match v with | .str s => s = "error" | _ => false)
  | .str s => some (strContains s "error")
  | _ => none

/-- The `bookingDays` loop: days with an `availabilities` list extend the
result; iterable non-list `availabilities` values and non-dict days are
approximated as errors. -/
def collectDays : List Json → Option (List Json)
  | [] => some []
  | day :: rest =>
    match day with
    | .obj dkvs =>
      match getKV dkvs "availabilities" with
      | some (.arr ys) =>
        match collectDays rest with
        | some acc => some (ys ++ acc)
        | none => none
      | some _ => none
      | none => collectDays rest
    | _ => none

/-- Extraction of the availability list from the possible top-level shapes:
`availabilities`, `bookingDays[].availabilities`, a bare list, the whole
dict as a single-element list, or empty for any other type. -/
def extractAvails : Json → Option (List Json)
  | .obj kvs =>
    match getKV kvs "availabilities" with
    | some (.arr xs) => some xs
    | some _ => none
    | none =>
      match getKV kvs "bookingDays" with
      | some (.arr days) => collectDays days
      | some _ => none
      | none => some [.obj kvs]
  | .arr xs => some xs
  | _ => some []

/-- `date_fields = ['Date', 'StartDate', 'date', 'startDate', 'StartTime']`. -/
def dateFields : List String := ["Date", "StartDate", "date", "startDate", "StartTime"]

/-- First field of the priority list present in the object (the loop breaks
on the first present field whether or not a date is then extracted). -/
def firstPresent : List String → List (String × Json) → Option Json
  | [], _ => none
  | f :: rest, kvs =>
    match getKV kvs f with
    | some v => some v
    | none => firstPresent rest kvs

/-- `date_value.split('T')[0]`. -/
def takeBeforeT (s : String) : String := String.mk (s.data.takeWhile (· ≠ 'T'))

def digitVal (c : Char) : Nat := c.toNat - '0'.toNat

/-- `datetime.strptime`'s numeric field: a two-digit value in `[lo, hi]`,
else a single non-zero digit. -/
def takeField (lo hi : Nat) (cs : List Char) : Option (Nat × List Char) :=
  match cs with
  | c1 :: rest1 =>
    if isDig c1 then
      match rest1 with
      | c2 :: rest2 =>
        if isDig c2 ∧ lo ≤ 10 * digitVal c1 + digitVal c2 ∧
            10 * digitVal c1 + digitVal c2 ≤ hi then
          some (10 * digitVal c1 + digitVal c2, rest2)
        else if 1 ≤ digitVal c1 then some (digitVal c1, rest1) else none
      | [] => if 1 ≤ digitVal c1 then some (digitVal c1, []) else none
    else none
  | [] => none

def monthLen (y m : Nat) : Nat :=
  if m = 2 then (if (y % 4 = 0 ∧ y % 100 ≠ 0) ∨ y % 400 = 0 then 29 else 28)
  else if m = 4 ∨ m = 6 ∨ m = 9 ∨ m = 11 then 30 else 31

/-- `datetime.strptime(s, '%m/%d/%y')`: month, day, two-digit year
(69..99 ↦ 19xx, 00..68 ↦ 20xx), full-string match, calendar-valid day. -/
def parseMDY (s : String) : Option (Nat × Nat × Nat) :=
  match takeField 1 12 s.data with
  | none => none
  | some (m, r1) =>
    match r1 with
    | '/' :: r2 =>
      match takeField 1 31 r2 with
      | none => none
      | some (d, r3) =>
        match r3 with
        | '/' :: y1 :: y2 :: rest =>
          if isDig y1 ∧ isDig y2 ∧ rest.isEmpty then
            let yy := 10 * digitVal y1 + digitVal y2
            let year := if yy ≤ 68 then 2000 + yy else 1900 + yy
            if d ≤ monthLen year m then some (year, m, d) else none
          else none
        | _ => none
    | _ => none

def pad2 (n : Nat) : String := if n < 10 then "0" ++ toString n else toString n

/-- The `M/D/YY` reformatting branch: on strptime success, ISO output via
`strftime('%Y-%m-%d')`; on failure the raw value is kept. -/
def mdyToIso (s : String) : String :=
  match parseMDY s with
  | some (y, m, d) => toString y ++ "-" ++ pad2 m ++ "-" ++ pad2 d
  | none => s

/-- Date extraction from one field value: strings get `T`-truncation or
`/`-reformatting; dicts contribute their `"date"` entry (non-string nested
dates, which would poison the later sort, are not modelled). -/
def dateFromValue : Json → Option String
  | .str dv =>
    some (if strHasChar dv 'T' then takeBeforeT dv
          else if strHasChar dv '/' then mdyToIso dv
          else dv)
  | .obj kvs2 =>
    match getKV kvs2 "date" with
    | some (.str s) => some s
    | some _ => none
    | none => none
  | _ => none

def resolveDate (kvs : List (String × Json)) : Option String :=
  match firstPresent dateFields kvs with
  | some v => dateFromValue v
  | none => none

/-- The grouping key of one availability object: only dicts participate,
and falsy (empty) dates are dropped (`if availability_date:`). -/
def dateKeyOf : Json → Option String
  | .obj kvs =>
    match resolveDate kvs with
    | some d => if d = "" then none else some d
    | none => none
  | _ => none

/-- `availabilities_by_date[date].append(availability)` on an
insertion-ordered dict. -/
def insertByDate (groups : List (String × List Json)) (d : String) (o : Json) :
    List (String × List Json) :=
  match groups with
  | [] => [(d, [o])]
  | (k, os) :: rest =>
    if k = d then (k, os ++ [o]) :: rest else (k, os) :: insertByDate rest d o

def stepGroup (groups : List (String × List Json)) (o : Json) :
    List (String × List Json) :=
  match dateKeyOf o with
  | some d => insertByDate groups d o
  | none => groups

def buildGroups (os : List Json) : List (String × List Json) :=
  os.foldl stepGroup []

def keyLe (p q : String × List Json) : Prop := lexLe p.1.data q.1.data = true

instance : DecidableRel keyLe := fun p q =>
  inferInstanceAs (Decidable (lexLe p.1.data q.1.data = true))

/-- `sorted(availabilities_by_date.items())`: ascending by date (keys are
distinct, so the list components are never compared). -/
def groupByDate (os : List Json) : List (String × List Json) :=
  (buildGroups os).insertionSort keyLe

/-- Python `min(keys)` (first minimum). -/
def minStr? : List String → Option String
  | [] => none
  | s :: rest => some (rest.foldl (fun acc x => if strLtB x acc then x else acc) s)

/-- Python `max(keys)` (first maximum). -/
def maxStr? : List String → Option String
  | [] => none
  | s :: rest => some (rest.foldl (fun acc x => if strLtB acc x then x else acc) s)

def optStrJson : Option String → Json
  | some s => .str s
  | none => .null

/-- `parse_schedule_data` of `xplor_schedule_fetcher.py`: error passthrough,
availability extraction, date grouping, ascending group list, and the
summary fields. -/
def parse_schedule_data (j : Json) : Option Json :=
  match errorCheck j with
  | none => none
  | some true => some j
  | some false =>
    match extractAvails j with
    | none => none
    | some avails =>
      if avails.isEmpty then
        some (.obj [("error", .str "No availability data found in response")])
      else
        let grouped := buildGroups avails
        let groups := (grouped.insertionSort keyLe)
        some (.obj
          [("schedule_data", .arr (groups.map fun g =>
              .obj [("date", .str g.1), ("availabilities", .arr g.2),
                    ("availability_count", .num (g.2.length : Int))])),
           ("total_availabilities", .num (avails.length : Int)),
           ("total_dates", .num (groups.length : Int)),
           ("date_range", .obj
             [("start", optStrJson (minStr? (grouped.map Prod.fst))),
              ("end", optStrJson (maxStr? (grouped.map Prod.fst)))])])

def c5ObjA : Json := .obj [("Date", .str "2025-10-13T00:00:00Z"), ("Title", .str "A")]

def c5ObjB : Json := .obj [("Date", .str "2025-10-14T00:00:00Z"), ("Title", .str "B")]

def c5Payload : Json := .obj [("availabilities", .arr [c5ObjA, c5ObjB])]

/-! ## C6: idempotence of the date grouping -/


/-- Group invariant: every group is non-empty and uniform for its key. -/
def GroupsUniform (gs : List (String × List Json)) : Prop :=
  ∀ g ∈ gs, g.2 ≠ [] ∧ ∀ x ∈ g.2, dateKeyOf x = some g.1

/-! ## Venue matching (`enrich_with_places.py`)

Floats are modelled as real numbers; the external `rapidfuzz`
`token_set_ratio` is an abstract parameter `fuzz`; the two network calls
(`places_nearby`, `get_place_details`) are oracles supplied by the caller. -/



/-- `math.radians`. -/
noncomputable def radians (x : ℝ) : ℝ := x * Real.pi / 180

/-- `haversine_m`: great-circle distance in meters, Earth radius
6,371,000 m. -/
noncomputable def haversine_m (lat1 lon1 lat2 lon2 : ℝ) : ℝ :=
  let R : ℝ := 6371000.0
  let dlat := radians (lat2 - lat1)
  let dlon := radians (lon2 - lon1)
  let a := Real.sin (dlat / 2) ^ 2 +
    Real.cos (radians lat1) * Real.cos (radians lat2) * Real.sin (dlon / 2) ^ 2
  2 * R * Real.arcsin (Real.sqrt a)

/-- Python `\w` (ASCII). -/
noncomputable def isWordChar (c : Char) : Bool := c.isAlphanum ∨ c = '_'

/-- The stop words of `norm_name`'s first substitution, in the regex's
alternation order with the greedy `courts?` expanded. -/
noncomputable def nnStopwords : List String :=
  ["tennis", "courts", "court", "park", "recreation", "rec", "center", "centre"]

/-- Try each stop word at the head of the text; a match must be followed by
a word boundary.  Returns the remainder after the match. -/
noncomputable def tryStopAux : List String → List Char → Option (List Char)
  | [], _ => none
  | w :: ws, cs =>
    if beginsWith w.data cs then
      match cs.drop w.data.length with
      | [] => some []
      | c :: rest2 =>
        if isWordChar c then tryStopAux ws cs else some (c :: rest2)
    else tryStopAux ws cs

/-- `re.sub(r'\b(tennis|courts?|park|recreation|rec|center|centre)\b', '', s)`:
left-to-right scan removing stop words at word boundaries (fuel-indexed;
the fuel is the text length, enough for the one-character steps). -/
noncomputable def remStopsF : Nat → Bool → List Char → List Char
  | 0, _, cs => cs
  | _ + 1, _, [] => []
  | fuel + 1, prevW, c :: rest =>
    if prevW then c :: remStopsF fuel (isWordChar c) rest
    else
      match tryStopAux nnStopwords (c :: rest) with
      | some rest2 => remStopsF fuel true rest2
      | none => c :: remStopsF fuel (isWordChar c) rest

/-- `re.sub(r'[^a-z0-9]+', ' ', s)`. -/
noncomputable def collapseNonAlnum : Bool → List Char → List Char
  | _, [] => []
  | inRun, c :: rest =>
    if ('a' ≤ c ∧ c ≤ 'z') ∨ ('0' ≤ c ∧ c ≤ '9') then
      c :: collapseNonAlnum false rest
    else if inRun then collapseNonAlnum true rest
    else ' ' :: collapseNonAlnum true rest

/-- `re.sub(r'\s+', ' ', s)`. -/
noncomputable def squeezeWs : Bool → List Char → List Char
  | _, [] => []
  | inWs, c :: rest =>
    if isPyWs c then
      (if inWs then squeezeWs true rest else ' ' :: squeezeWs true rest)
    else c :: squeezeWs false rest

/-- `norm_name`: lower-case (with `None` ↦ `""`), strip the stop-word set at
word boundaries, collapse non-alphanumerics to single spaces, squeeze
whitespace, strip. -/
noncomputable def norm_name (s? : Option String) : String :=
  let s1 := (lowerStr (s?.getD "")).data
  let s2 := remStopsF s1.length false s1
  let s3 := collapseNonAlnum false s2
  let s4 := squeezeWs false s3
  String.mk (dropTrailWs (dropLeadWs s4))

/-- A candidate place as used by `choose_best_match`: id, optional display
name text, optional location, official type tags. -/
structure Place where
  id : String
  displayNameText? : Option String
  location? : Option (ℝ × ℝ)
  types : List String

/-- Python `str.isidentifier` (ASCII). -/
noncomputable def pyIsIdentifier (s : String) : Bool :=
  match s.data with
  | [] => false
  | c :: rest => (c.isAlpha ∨ c = '_') ∧ rest.all (fun x => x.isAlphanum ∨ x = '_')

/-- `choose_best_match`'s default `prefer_types` set. -/
noncomputable def defaultPreferTypes : List String :=
  ["tennis court", "school", "event venue", "recreation center", "park",
   "stadium", "community_center"]

/-- `choose_best_match`'s default `avoid_name_terms` set. -/
noncomputable def defaultAvoidTerms : List String :=
  ["academy", "shop", "store", "club", "pro shop"]

/-- `haversine_m(lat, lng, loc.get("latitude", 0.0), loc.get("longitude", 0.0))`. -/
noncomputable def candDistance (lat lng : ℝ) (p : Place) : ℝ :=
  let loc := p.location?.getD (0.0, 0.0)
  haversine_m lat lng loc.1 loc.2

/-- `dist_score = max(0, 100 * (1 - min(d, 120.0) / 120.0))`. -/
noncomputable def dist_score (lat lng : ℝ) (p : Place) : ℝ :=
  max 0 (100 * (1 - min (candDistance lat lng p) 120.0 / 120.0))

/-- The total score of one candidate in the `choose_best_match` loop:
distance score (or the 0.55/0.45 blend when not preferring distance), plus
the +12 official-type boost, the +8 name-term boost and the −10
business-name penalty. -/
noncomputable def candScore (fuzz : String → String → ℝ) (base : String) (lat lng : ℝ)
    (prefer_distance : Bool) (prefer_types avoid_name_terms : List String)
    (p : Place) : ℝ :=
  let ds := dist_score lat lng p
  let name_score := fuzz base (norm_name p.displayNameText?)
  let score :=
    if prefer_distance then ds
    else if base ≠ "" then 0.55 * ds + 0.45 * name_score else ds
  let lower_name := lowerStr (p.displayNameText?.getD "")
  let boost1 : ℝ :=
    if (prefer_types.filter pyIsIdentifier).any (fun t => t ∈ p.types)
    then 12.0 else 0.0
  let boost2 : ℝ :=
    if prefer_types.any (fun t => strContains lower_name t) then 8.0 else 0.0
  let boost3 : ℝ :=
    if avoid_name_terms.any (fun t => strContains lower_name t)
    then -10.0 else 0.0
  score + boost1 + boost2 + boost3

/-- `if score > best[1]: best = (p, score, d)`. -/
noncomputable def cbmStep (sc di : Place → ℝ) (best : Option Place × ℝ × Option ℝ)
    (p : Place) : Option Place × ℝ × Option ℝ :=
  if best.2.1 < sc p then (some p, sc p, some (di p)) else best

/-- `choose_best_match`: fold the scoring step from `(None, -1.0, None)`;
`None` arguments select the in-function default preference sets. -/
noncomputable def choose_best_match (fuzz : String → String → ℝ) (osm_name : Option String)
    (lat lng : ℝ) (candidates : List Place) (prefer_distance : Bool)
    (prefer_types? avoid_name_terms? : Option (List String)) :
    Option Place × ℝ × Option ℝ :=
  let prefer_types := prefer_types?.getD defaultPreferTypes
  let avoid_name_terms := avoid_name_terms?.getD defaultAvoidTerms
  let base := norm_name osm_name
  let best := candidates.foldl
    (cbmStep
      (candScore fuzz base lat lng prefer_distance prefer_types avoid_name_terms)
      (candDistance lat lng))
    (none, -1.0, none)
  if best.1.isSome then best else (none, 0, none)

/-- The fields of one source record the enrichment driver touches. -/
structure GoogleEnrichment where
  place_id : String
  displayName : String
  formattedAddress : Option String
  accessibilityOptions : String
  distance_m : ℝ
  match_score : ℝ

structure SourceRecord where
  lat : ℝ
  lon : ℝ
  name : Option String
  google : Option GoogleEnrichment := none

/-- The fields fetched by `get_place_details` (nested dicts abstracted to
strings). -/
structure PlaceDetails where
  displayName : String
  formattedAddress : Option String
  accessibilityOptions : String

/-- Python `round(x, 1)` (round half to even at one decimal). -/
noncomputable def pyRound1 (x : ℝ) : ℝ :=
  (let y := 10 * x
   let f : ℤ := ⌊y⌋
   if y - f < 1 / 2 then (f : ℝ)
   else if 1 / 2 < y - f then (f : ℝ) + 1
   else if Even f then (f : ℝ) else (f : ℝ) + 1) / 10

/-- `r["google"] = {...}`. -/
noncomputable def attachGoogle (r : SourceRecord) (p : Place) (det : PlaceDetails)
    (score : ℝ) (meters? : Option ℝ) : SourceRecord :=
  let g : GoogleEnrichment :=
    { place_id := p.id
      displayName := det.displayName
      formattedAddress := det.formattedAddress
      accessibilityOptions := det.accessibilityOptions
      distance_m := pyRound1 (meters?.getD 0)
      match_score := pyRound1 score }
  { r with google := some g }

/-- The per-record body of the `enrich` loop after the candidate lookup:
`choose_best_match` (with `None` preference arguments replaced by empty
sets, as `enrich` does), then the hard distance accept/reject gate, then
the threshold check. -/
noncomputable def enrichRecord (fuzz : String → String → ℝ) (details : String → PlaceDetails)
    (threshold accept_within_m hard_reject_over_m : ℝ) (prefer_distance : Bool)
    (prefer_types? avoid_name_terms? : Option (List String))
    (r : SourceRecord) (cands : List Place) : SourceRecord :=
  let b := choose_best_match fuzz r.name r.lat r.lon cands prefer_distance
    (some (prefer_types?.getD [])) (some (avoid_name_terms?.getD []))
  let tp : SourceRecord :=
    match b.1 with
    | some p =>
      if threshold ≤ b.2.1 then attachGoogle r p (details p.id) b.2.1 b.2.2
      else r
    | none => r
  match b.1, b.2.2 with
  | some _, some m =>
    if m ≤ accept_within_m then tp
    else if hard_reject_over_m < m then r
    else tp
  | _, _ => tp

/-- The `enrich` driver over a record list; the network candidate lookup is
an oracle from coordinates to candidate lists. -/
noncomputable def enrich (fuzz : String → String → ℝ) (details : String → PlaceDetails)
    (candsOf : ℝ × ℝ → List Place)
    (threshold accept_within_m hard_reject_over_m : ℝ) (prefer_distance : Bool)
    (prefer_types? avoid_name_terms? : Option (List String))
    (records : List SourceRecord) : List SourceRecord :=
  records.map (fun r => enrichRecord fuzz details threshold accept_within_m
    hard_reject_over_m prefer_distance prefer_types? avoid_name_terms? r
    (candsOf (r.lat, r.lon)))

/-- A perfect name scorer (token_set_ratio returning 100 everywhere). -/
noncomputable def fuzz100 : String → String → ℝ := fun _ _ => 100

noncomputable def noDetails : String → PlaceDetails :=
  fun _ => { displayName := "", formattedAddress := none,
             accessibilityOptions := "" }

/-- A candidate at the source venue's own coordinates with the source
venue's name. -/
noncomputable def nearPlace : Place :=
  { id := "near", displayNameText? := some "Ray Park",
    location? := some (0, 0), types := [] }

/-- A candidate on the opposite side of the globe (distance 6,371,000·π m,
far beyond 400 m). -/
noncomputable def farPlace : Place :=
  { id := "far", displayNameText? := some "Far Tennis",
    location? := some (0, 180), types := [] }

noncomputable def c7Rec : SourceRecord :=
  { lat := 0, lon := 0, name := some "Ray Park", google := none }

/-! ## Theorems -/

theorem isDig_digitChar (d : Nat) : isDig (digitChar d) = true := by
  unfold digitChar
  split <;> decide

theorem ampm_chars {a : String} (ha : a ∈ ampmForms) :
    ∃ c1 c2, a.data = [c1, c2] ∧ (lcc c1 = 'a' ∨ lcc c1 = 'p') ∧ lcc c2 = 'm' := by
  fin_cases ha <;> exact ⟨_, _, rfl, by decide, by decide⟩

theorem isPyWs_false_of_lcc {c x : Char}
    (hx : x = 'a' ∨ x = 'p' ∨ x = 'm') (h : lcc c = x) : isPyWs c = false := by
  by_contra hws
  rw [Bool.not_eq_false] at hws
  unfold isPyWs at hws
  rcases of_decide_eq_true hws with h1 | h1 | h1 | h1 | h1 | h1 <;>
    subst h1 <;> rcases hx with hx | hx | hx <;> subst hx <;>
    exact absurd h (by decide)

theorem eatWs_cons_ws {c : Char} (h : isPyWs c = true) (cs : List Char) :
    eatWs (c :: cs) = eatWs cs := by
  simp [eatWs, List.dropWhile_cons, h]

theorem eatWs_cons_nws {c : Char} (h : isPyWs c = false) (cs : List Char) :
    eatWs (c :: cs) = c :: cs := by
  simp [eatWs, List.dropWhile_cons, h]

theorem eatD2_one {c c2 : Char} (h : isDig c = true) (h2 : isDig c2 = false)
    (rest : List Char) : eatD2 (c :: c2 :: rest) = some (c2 :: rest) := by
  simp [eatD2, h, h2]

theorem eatD2_two {c c2 : Char} (h : isDig c = true) (h2 : isDig c2 = true)
    (rest : List Char) : eatD2 (c :: c2 :: rest) = some rest := by
  simp [eatD2, h, h2]

theorem eatChar_self (x : Char) (r : List Char) : eatChar x (x :: r) = some r := by
  simp [eatChar]

theorem eatDig_cons {c : Char} (h : isDig c = true) (r : List Char) :
    eatDig (c :: r) = some r := by
  simp [eatDig, h]

theorem eatAmPm_cons {c1 c2 : Char} (h1 : lcc c1 = 'a' ∨ lcc c1 = 'p')
    (h2 : lcc c2 = 'm') (r : List Char) : eatAmPm (c1 :: c2 :: r) = some r := by
  simp [eatAmPm, h1, h2]

theorem matchSide_slot (h m : Nat) {a : String} (ha : a ∈ ampmForms)
    (rest : List Char) :
    matchSide (hourChars h ++ ':' :: (minChars m ++ ' ' :: (a.data ++ rest)))
      = some rest := by
  obtain ⟨c1, c2, hdat, hc1, hc2⟩ := ampm_chars ha
  rw [hdat]
  have hw1 : isPyWs c1 = false := by
    rcases hc1 with hc1 | hc1
    · exact isPyWs_false_of_lcc (Or.inl rfl) hc1
    · exact isPyWs_false_of_lcc (Or.inr (Or.inl rfl)) hc1
  unfold matchSide minChars
  unfold hourChars
  by_cases hlt : h < 10
  · rw [if_pos hlt]
    rw [List.cons_append, List.nil_append]
    rw [eatD2_one (isDig_digitChar h) (by decide)]
    simp only [Option.some_bind]
    rw [eatChar_self]
    simp only [Option.some_bind, List.cons_append, List.nil_append]
    rw [eatDig_cons (isDig_digitChar _)]
    simp only [Option.some_bind]
    rw [eatDig_cons (isDig_digitChar _)]
    simp only [Option.some_bind]
    rw [eatWs_cons_ws (by decide), eatWs_cons_nws hw1]
    exact eatAmPm_cons hc1 hc2 rest
  · rw [if_neg hlt]
    rw [List.cons_append, List.cons_append, List.nil_append]
    rw [eatD2_two (by decide) (isDig_digitChar _)]
    simp only [Option.some_bind]
    rw [eatChar_self]
    simp only [Option.some_bind, List.cons_append, List.nil_append]
    rw [eatDig_cons (isDig_digitChar _)]
    simp only [Option.some_bind]
    rw [eatDig_cons (isDig_digitChar _)]
    simp only [Option.some_bind]
    rw [eatWs_cons_ws (by decide), eatWs_cons_nws hw1]
    exact eatAmPm_cons hc1 hc2 rest

theorem isPyWs_digitChar (d : Nat) : isPyWs (digitChar d) = false := by
  unfold digitChar
  split <;> decide

theorem eatD2_split {cs r : List Char} (h : eatD2 cs = some r) :
    ∃ p, cs = p ++ r := by
  cases cs with
  | nil => simp [eatD2] at h
  | cons c rest =>
    by_cases hd : isDig c = true
    · cases rest with
      | nil =>
        simp [eatD2, hd] at h
        exact ⟨[c], by simp [← h]⟩
      | cons c2 rest2 =>
        by_cases hd2 : isDig c2 = true
        · simp [eatD2, hd, hd2] at h
          exact ⟨[c, c2], by simp [← h]⟩
        · simp [eatD2, hd, hd2] at h
          exact ⟨[c], by simp [← h]⟩
    · simp [eatD2, hd] at h

theorem eatChar_split {x : Char} {cs r : List Char} (h : eatChar x cs = some r) :
    cs = x :: r := by
  cases cs with
  | nil => simp [eatChar] at h
  | cons c rest =>
    by_cases hc : c = x
    · subst hc
      simp [eatChar] at h
      rw [h]
    · simp [eatChar, hc] at h

theorem eatDig_split {cs r : List Char} (h : eatDig cs = some r) :
    ∃ c, cs = c :: r := by
  cases cs with
  | nil => simp [eatDig] at h
  | cons c rest =>
    by_cases hd : isDig c = true
    · simp [eatDig, hd] at h
      exact ⟨c, by rw [h]⟩
    · simp [eatDig, hd] at h

theorem eatAmPm_split {cs r : List Char} (h : eatAmPm cs = some r) :
    ∃ c1 c2, cs = c1 :: c2 :: r ∧ (lcc c1 = 'a' ∨ lcc c1 = 'p') ∧ lcc c2 = 'm' := by
  match cs with
  | [] => simp [eatAmPm] at h
  | [c] => simp [eatAmPm] at h
  | c1 :: c2 :: rest =>
    by_cases hcond : (lcc c1 = 'a' ∨ lcc c1 = 'p') ∧ lcc c2 = 'm'
    · simp [eatAmPm, hcond] at h
      exact ⟨c1, c2, by rw [h], hcond.1, hcond.2⟩
    · simp [eatAmPm, hcond] at h

theorem eatWs_split (cs : List Char) :
    ∃ w, cs = w ++ eatWs cs ∧ ∀ c ∈ w, isPyWs c = true :=
  ⟨cs.takeWhile isPyWs, (List.takeWhile_append_dropWhile isPyWs cs).symm,
    fun _ hc => List.mem_takeWhile_imp hc⟩

theorem matchSide_split {cs r : List Char} (h : matchSide cs = some r) :
    ∃ p c1 c2, cs = p ++ c1 :: c2 :: r ∧ (lcc c1 = 'a' ∨ lcc c1 = 'p') ∧
      lcc c2 = 'm' := by
  unfold matchSide at h
  obtain ⟨r4, hr4, hAm⟩ := Option.bind_eq_some.mp h
  obtain ⟨r3, hr3, hDig2⟩ := Option.bind_eq_some.mp hr4
  obtain ⟨r2, hr2, hDig1⟩ := Option.bind_eq_some.mp hr3
  obtain ⟨r1, hD2, hColon⟩ := Option.bind_eq_some.mp hr2
  obtain ⟨p0, hp0⟩ := eatD2_split hD2
  have hcol : r1 = ':' :: r2 := eatChar_split hColon
  obtain ⟨d1, hd1⟩ := eatDig_split hDig1
  obtain ⟨d2, hd2⟩ := eatDig_split hDig2
  obtain ⟨w, hwEq, _⟩ := eatWs_split r4
  obtain ⟨c1, c2, hAmEq, hc1, hc2⟩ := eatAmPm_split hAm
  refine ⟨p0 ++ ':' :: d1 :: d2 :: w, c1, c2, ?_, hc1, hc2⟩
  rw [hp0, hcol, hd1, hd2, hwEq, hAmEq]
  simp

theorem endsAmPm_append_ws {p : List Char} {c1 c2 : Char} {w : List Char}
    (hw : ∀ c ∈ w, isPyWs c = true) (hc1 : lcc c1 = 'a' ∨ lcc c1 = 'p')
    (hc2 : lcc c2 = 'm') : endsAmPm (p ++ c1 :: c2 :: w) = true := by
  have hw2 : isPyWs c2 = false := isPyWs_false_of_lcc (Or.inr (Or.inr rfl)) hc2
  unfold endsAmPm
  have hrev : (p ++ c1 :: c2 :: w).reverse = w.reverse ++ c2 :: c1 :: p.reverse := by
    simp
  rw [hrev]
  have hnil : List.dropWhile isPyWs w.reverse = [] := by
    rw [List.dropWhile_eq_nil_iff]
    intro a haMem
    exact hw a (List.mem_reverse.mp haMem)
  rw [List.dropWhile_append, hnil]
  simp only [List.isEmpty_nil, if_true]
  rw [List.dropWhile_cons, if_neg (by simp [hw2])]
  simp [hc1, hc2]

theorem eatWs_hour (h : Nat) (rest : List Char) :
    eatWs (hourChars h ++ rest) = hourChars h ++ rest := by
  unfold hourChars
  by_cases hlt : h < 10
  · rw [if_pos hlt, List.cons_append, List.nil_append,
      eatWs_cons_nws (isPyWs_digitChar h)]
  · rw [if_neg hlt, List.cons_append]
    exact eatWs_cons_nws (by decide) _

theorem timeFullmatchL_of (cs r1 r2 : List Char) (h1 : matchSide cs = some r1)
    (h2 : eatChar '-' (eatWs r1) = some r2) (h3 : matchSide (eatWs r2) = some []) :
    timeFullmatchL cs = true := by
  unfold timeFullmatchL
  rw [h1]
  simp only [Option.map_some', Option.some_bind]
  rw [h2]
  simp only [Option.map_some', Option.some_bind]
  rw [h3]
  rfl

/-- C2: every string of the exact slot form `H:MM am|pm - H:MM am|pm`
(1 ≤ H ≤ 12, 00 ≤ MM ≤ 59, am/pm in any letter case, single spaces) passes
the recognizer's full-match predicate; and any string that lacks the `-`
separator, or admits no split at a `-` whose two sides both end
(whitespace-ignoring) in am/pm, fails it. -/
theorem C2_slot_recognizer :
    (∀ h1 m1 h2 m2 : Nat, ∀ a1 a2 : String,
        1 ≤ h1 → h1 ≤ 12 → m1 ≤ 59 → 1 ≤ h2 → h2 ≤ 12 → m2 ≤ 59 →
        a1 ∈ ampmForms → a2 ∈ ampmForms →
        TIME_RE_fullmatch (slotForm h1 m1 a1 h2 m2 a2) = true) ∧
    (∀ s : String,
        ('-' ∉ s.data ∨
          ∀ l r, s.data = l ++ '-' :: r →
            ¬(endsAmPm l = true ∧ endsAmPm r = true)) →
        TIME_RE_fullmatch s = false) := by
  constructor
  · intro h1 m1 h2 m2 a1 a2 _ _ _ _ _ _ ha1 ha2
    show timeFullmatchL (hourChars h1 ++ ':' :: (minChars m1 ++ ' ' ::
      (a1.data ++ ' ' :: '-' :: ' ' :: (hourChars h2 ++ ':' ::
        (minChars m2 ++ ' ' :: a2.data))))) = true
    refine timeFullmatchL_of _ _
      (' ' :: (hourChars h2 ++ ':' :: (minChars m2 ++ ' ' :: a2.data)))
      (matchSide_slot h1 m1 ha1 _) ?_ ?_
    · rw [eatWs_cons_ws (by decide), eatWs_cons_nws (by decide)]
      exact eatChar_self '-' _
    · rw [eatWs_cons_ws (by decide), eatWs_hour]
      rw [show (minChars m2 ++ ' ' :: a2.data)
          = (minChars m2 ++ ' ' :: (a2.data ++ [])) by simp]
      exact matchSide_slot h2 m2 ha2 []
  · intro s hyp
    by_contra hne
    rw [Bool.not_eq_false] at hne
    -- extract the split structure from a successful full match
    have hsplit : ∃ l r, s.data = l ++ '-' :: r ∧ endsAmPm l = true ∧
        endsAmPm r = true := by
      unfold TIME_RE_fullmatch timeFullmatchL at hne
      have hchain := eq_of_beq hne
      obtain ⟨x4, hx4, hms2⟩ := Option.bind_eq_some.mp hchain
      obtain ⟨x3, hx3, hxw2⟩ := Option.map_eq_some'.mp hx4
      obtain ⟨x2, hx2, hch⟩ := Option.bind_eq_some.mp hx3
      obtain ⟨x1, hms1, hxw1⟩ := Option.map_eq_some'.mp hx2
      subst hxw1
      subst hxw2
      obtain ⟨p1, c1, c2, hEq1, hc1, hc2⟩ := matchSide_split hms1
      obtain ⟨w1, hw1Eq, hw1Ws⟩ := eatWs_split x1
      have hdash : eatWs x1 = '-' :: x3 := eatChar_split hch
      obtain ⟨w2, hw2Eq, _⟩ := eatWs_split x3
      obtain ⟨p2, d1, d2, hEq2, hd1, hd2⟩ := matchSide_split hms2
      refine ⟨p1 ++ c1 :: c2 :: w1, w2 ++ (p2 ++ [d1, d2]), ?_, ?_, ?_⟩
      · rw [hEq1]
        conv_lhs => rw [hw1Eq, hdash, hw2Eq, hEq2]
        simp
      · exact endsAmPm_append_ws hw1Ws hc1 hc2
      · rw [show w2 ++ (p2 ++ [d1, d2]) = (w2 ++ p2) ++ d1 :: d2 :: [] by simp]
        exact endsAmPm_append_ws (by simp) hd1 hd2
    obtain ⟨l, r, hEq, hl, hr⟩ := hsplit
    rcases hyp with hnd | hns
    · exact hnd (by rw [hEq]; simp)
    · exact hns l r hEq ⟨hl, hr⟩

/-- Witness for C2: the theorem applied at `8:00 am - 9:00 am` (positive side)
and at `800` (no hyphen, negative side). -/
theorem C2_slot_recognizer_witness :
    TIME_RE_fullmatch (slotForm 8 0 "am" 9 0 "am") = true ∧
    TIME_RE_fullmatch "800" = false :=
  ⟨C2_slot_recognizer.1 8 0 9 0 "am" "am" (by decide) (by decide) (by decide)
      (by decide) (by decide) (by decide) (by decide) (by decide),
    C2_slot_recognizer.2 "800" (Or.inl (by decide))⟩

/-- C1: the table-layout normalizer on the one-facility scenario document
(details link with `FMID=296964`, `Facility Description` cell reading
`Laguna Park Court 1`, one success/Book-Now anchor with text
`8:00 am - 9:00 am`, one error/Unavailable anchor whose first child span
reads `9:00 am - 10:00 am`) yields exactly the claimed one-element list. -/
theorem C1_table_end_to_end : parse_listing_table_schedules c1Doc =
    [{ fmid := some "296964", label := some "Laguna Park Court 1",
       location := none, available_slots := ["8:00 am - 9:00 am"],
       unavailable_slots := ["9:00 am - 10:00 am"] }] := by decide

theorem mem_concatAll {α : Type} {x : α} {xss : List (List α)} :
    x ∈ concatAll xss ↔ ∃ xs ∈ xss, x ∈ xs := by
  induction xss with
  | nil => simp [concatAll]
  | cons xs rest ih =>
    have hc : concatAll (xs :: rest) = xs ++ concatAll rest := rfl
    rw [hc, List.mem_append, ih]
    constructor
    · rintro (hx | ⟨ys, hys, hxy⟩)
      · exact ⟨xs, List.mem_cons_self _ _, hx⟩
      · exact ⟨ys, List.mem_cons_of_mem _ hys, hxy⟩
    · rintro ⟨ys, hys, hxy⟩
      rcases List.mem_cons.mp hys with h | h
      · exact Or.inl (h ▸ hxy)
      · exact Or.inr ⟨ys, h, hxy⟩

theorem classifySlots_eq (as : List Dom) :
    classifySlots as =
      (concatAll (as.map contribAvail), concatAll (as.map contribUnavail)) := by
  induction as with
  | nil => rfl
  | cons a rest ih =>
    by_cases h1 : availGateB a = true
    · by_cases h2 : TIME_RE_fullmatch a.getTextStripped = true
      · simp [classifySlots, contribAvail, contribUnavail, h1, h2, ih, concatAll]
      · simp [classifySlots, contribAvail, contribUnavail, h1, h2, ih, concatAll]
    · rw [Bool.not_eq_true] at h1
      by_cases h3 : errGateB a = true
      · rcases hs : spansOf a with _ | ⟨sp, sps⟩
        · simp [classifySlots, contribAvail, contribUnavail, h1, h3, hs, ih,
            concatAll]
        · by_cases h2 : TIME_RE_fullmatch sp.getTextStripped = true
          · simp [classifySlots, contribAvail, contribUnavail, h1, h3, hs, h2,
              ih, concatAll]
          · simp [classifySlots, contribAvail, contribUnavail, h1, h3, hs, h2,
              ih, concatAll]
      · rw [Bool.not_eq_true] at h3
        simp [classifySlots, contribAvail, contribUnavail, h1, h3, ih, concatAll]

theorem mem_contribAvail {a : Dom} {s : String} (h : s ∈ contribAvail a) :
    availGateB a = true ∧ TIME_RE_fullmatch s = true ∧ a.getTextStripped = s := by
  unfold contribAvail at h
  split_ifs at h with h1 h2
  · simp at h
    subst h
    exact ⟨h1, h2, rfl⟩
  · simp at h
  · simp at h

theorem mem_contribUnavail {a : Dom} {s : String} (h : s ∈ contribUnavail a) :
    availGateB a = false ∧ errGateB a = true := by
  unfold contribUnavail at h
  split_ifs at h with h1 h3
  · simp at h
  · refine ⟨by simpa using h1, h3⟩
  · simp at h

theorem tableRows_slots {rows : List Dom} {rec : FacilityRec}
    (h : rec ∈ tableRows rows) :
    ∃ anchors : List Dom, rec.available_slots = (classifySlots anchors).1 ∧
      rec.unavailable_slots = (classifySlots anchors).2 := by
  induction rows using tableRows.induct with
  | case1 => simp [tableRows] at h
  | case2 row rest2 hempty ih =>
    have heq : tableRows (row :: rest2) = tableRows rest2 := by
      rw [tableRows.eq_def]
      simp [hempty]
    rw [heq] at h
    exact ih h
  | case3 row hempty =>
    have heq : tableRows [row] = [buildTableRec row none] := by
      rw [tableRows.eq_def]
      simp [hempty]
    rw [heq] at h
    simp at h
    subst h
    exact ⟨[], rfl, rfl⟩
  | case4 row hempty cart rest2 ih =>
    have heq : tableRows (row :: cart :: rest2)
        = buildTableRec row (some cart) :: tableRows rest2 := by
      rw [tableRows.eq_def]
      simp [hempty]
    rw [heq] at h
    rcases List.mem_cons.mp h with h' | h'
    · subst h'
      exact ⟨cartButtonsOf cart, rfl, rfl⟩
    · exact ih h'

theorem group_rec_slots {doc : Dom} {rec : FacilityRec}
    (h : rec ∈ parse_listing_group_schedules doc) :
    ∃ anchors : List Dom, rec.available_slots = (classifySlots anchors).1 ∧
      rec.unavailable_slots = (classifySlots anchors).2 := by
  unfold parse_listing_group_schedules at h
  rcases hc : Dom.findFirst? doc
      (fun d => d.attr? "id" = some "frwebsearch_nextgencontrolsgroup") with
    _ | container
  · rw [hc] at h
    simp at h
  · rw [hc] at h
    simp only [List.mem_map] at h
    obtain ⟨card, _, hcard⟩ := h
    subst hcard
    exact ⟨cartButtonsOf card, rfl, rfl⟩

theorem table_rec_slots {doc : Dom} {rec : FacilityRec}
    (h : rec ∈ parse_listing_table_schedules doc) :
    ∃ anchors : List Dom, rec.available_slots = (classifySlots anchors).1 ∧
      rec.unavailable_slots = (classifySlots anchors).2 := by
  unfold parse_listing_table_schedules at h
  rcases h1 : findOutputTable doc with _ | table
  · rw [h1] at h
    simp at h
  · rw [h1] at h
    dsimp only at h
    rcases h2 : findTbody table with _ | tbody
    · rw [h2] at h
      simp at h
    · rw [h2] at h
      exact tableRows_slots h

/-- Counterexample to C3 as stated: on `c3Doc` the table-layout normalizer
produces a record in which `8:00 am - 9:00 am` is a member of both
`available_slots` and `unavailable_slots` (contributed by two distinct
anchors). -/
theorem C3_counterexample :
    ∃ rec ∈ parse_listing_table_schedules c3Doc,
      ∃ s ∈ rec.available_slots, s ∈ rec.unavailable_slots := by decide

/-- C3 amended: a slot string can occur in both lists of one record only
when two distinct slot anchors contribute it — one passing the
success/book-now test and one failing it (and passing the
error/unavailable test); a single anchor never populates both lists. -/
theorem C3_amended_no_single_anchor_overlap :
    ∀ (doc : Dom) (rec : FacilityRec),
    (rec ∈ parse_listing_table_schedules doc ∨
      rec ∈ parse_listing_group_schedules doc) →
    ∀ s ∈ rec.available_slots, s ∈ rec.unavailable_slots →
    ∃ anchors : List Dom,
      rec.available_slots = (classifySlots anchors).1 ∧
      rec.unavailable_slots = (classifySlots anchors).2 ∧
      ∃ a1 ∈ anchors, ∃ a2 ∈ anchors, a1 ≠ a2 ∧
        availGateB a1 = true ∧ availGateB a2 = false ∧ errGateB a2 = true ∧
        a1.getTextStripped = s := by
  intro doc rec hmem s hsA hsU
  obtain ⟨anchors, hA, hU⟩ := hmem.elim table_rec_slots group_rec_slots
  refine ⟨anchors, hA, hU, ?_⟩
  rw [hA, classifySlots_eq] at hsA
  rw [hU, classifySlots_eq] at hsU
  simp only at hsA hsU
  obtain ⟨la, hla, hsla⟩ := mem_concatAll.mp hsA
  obtain ⟨a1, ha1, hla'⟩ := List.mem_map.mp hla
  subst hla'
  obtain ⟨lu, hlu, hslu⟩ := mem_concatAll.mp hsU
  obtain ⟨a2, ha2, hlu'⟩ := List.mem_map.mp hlu
  subst hlu'
  obtain ⟨hg1, _, htxt⟩ := mem_contribAvail hsla
  obtain ⟨hg2f, hg2e⟩ := mem_contribUnavail hslu
  refine ⟨a1, ha1, a2, ha2, ?_, hg1, hg2f, hg2e, htxt⟩
  intro hcontra
  rw [hcontra, hg2f] at hg1
  exact Bool.false_ne_true hg1

/-- Witness for the amended C3 at the counterexample document. -/
theorem C3_amended_witness :
    ∃ anchors : List Dom,
      (parse_listing_table_schedules c3Doc).headI.available_slots
        = (classifySlots anchors).1 ∧
      (parse_listing_table_schedules c3Doc).headI.unavailable_slots
        = (classifySlots anchors).2 ∧
      ∃ a1 ∈ anchors, ∃ a2 ∈ anchors, a1 ≠ a2 ∧
        availGateB a1 = true ∧ availGateB a2 = false ∧ errGateB a2 = true ∧
        a1.getTextStripped = "8:00 am - 9:00 am" :=
  C3_amended_no_single_anchor_overlap c3Doc
    (parse_listing_table_schedules c3Doc).headI
    (Or.inl (by decide)) "8:00 am - 9:00 am" (by decide) (by decide)

/-- C9: in both normalizers every slot anchor contributes at most one slot
string to at most one of the two lists, via the shared classification loop
(`classifySlots` decomposes anchor-wise), and the availability test is
checked first: whenever the success/book-now test passes the anchor
contributes nothing to the unavailable list — the error/unavailable branch
is reached only when the availability test fails. -/
theorem C9_anchor_classification :
    ∀ as : List Dom,
      classifySlots as =
        (concatAll (as.map contribAvail), concatAll (as.map contribUnavail)) ∧
      ∀ a : Dom,
        ((contribAvail a).length + (contribUnavail a).length ≤ 1) ∧
        (availGateB a = true →
          contribUnavail a = [] ∧
          contribAvail a =
            (if TIME_RE_fullmatch a.getTextStripped
             then [a.getTextStripped] else [])) := by
  intro as
  refine ⟨classifySlots_eq as, fun a => ⟨?_, fun hg => ⟨?_, ?_⟩⟩⟩
  · by_cases h1 : availGateB a = true
    · simp only [contribAvail, contribUnavail, h1, if_true]
      split_ifs <;> simp
    · rw [Bool.not_eq_true] at h1
      simp only [contribAvail, contribUnavail, h1, Bool.false_eq_true,
        if_false]
      split_ifs with h3
      · rcases spansOf a with _ | ⟨sp, sps⟩
        · simp
        · dsimp only
          split_ifs <;> simp
      · simp
  · simp [contribUnavail, hg]
  · simp [contribAvail, hg]

/-- Witness for C9: applied to the double-signal anchor, whose availability
test passes, so it is classified available and contributes nothing
unavailable. -/
theorem C9_anchor_classification_witness :
    contribUnavail c9BothAnchor = [] ∧
    contribAvail c9BothAnchor =
      (if TIME_RE_fullmatch c9BothAnchor.getTextStripped
       then [c9BothAnchor.getTextStripped] else []) :=
  ((C9_anchor_classification []).2 c9BothAnchor).2 (by decide)

/-- C4: the table-layout normalizer returns the empty list (rather than
raising) whenever the results table or its body is absent, and the schedule
assembler's pre-tagging facility list is the card-layout normalizer's output
exactly when the table-layout normalizer yields zero facilities, and the
table-layout normalizer's output otherwise. -/
theorem C4_empty_table_and_fallback :
    (∀ doc : Dom, findOutputTable doc = none →
      parse_listing_table_schedules doc = []) ∧
    (∀ doc t, findOutputTable doc = some t → findTbody t = none →
      parse_listing_table_schedules doc = []) ∧
    (∀ doc : Dom, parse_listing_table_schedules doc = [] →
      fetch_schedule_items doc = parse_listing_group_schedules doc) ∧
    (∀ doc : Dom, parse_listing_table_schedules doc ≠ [] →
      fetch_schedule_items doc = parse_listing_table_schedules doc) := by
  refine ⟨?_, ?_, ?_, ?_⟩
  · intro doc h
    unfold parse_listing_table_schedules
    rw [h]
  · intro doc t h1 h2
    unfold parse_listing_table_schedules
    rw [h1]
    dsimp only
    rw [h2]
  · intro doc h
    unfold fetch_schedule_items
    rw [h]
    rfl
  · intro doc h
    unfold fetch_schedule_items
    rw [if_neg]
    simp [List.isEmpty_iff, h]

/-- Witness for C4: the absent-table and absent-tbody cases return `[]`,
the assembler falls back to the group parser on an empty table parse, and
keeps the table parse on the non-empty `c1Doc`. -/
theorem C4_empty_table_and_fallback_witness :
    parse_listing_table_schedules c4NoTableDoc = [] ∧
    parse_listing_table_schedules c4NoTbodyDoc = [] ∧
    fetch_schedule_items c4NoTableDoc = parse_listing_group_schedules c4NoTableDoc ∧
    fetch_schedule_items c1Doc = parse_listing_table_schedules c1Doc :=
  ⟨C4_empty_table_and_fallback.1 c4NoTableDoc rfl,
   C4_empty_table_and_fallback.2.1 c4NoTbodyDoc c4BareTable rfl rfl,
   C4_empty_table_and_fallback.2.2.1 c4NoTableDoc
     (C4_empty_table_and_fallback.1 c4NoTableDoc rfl),
   C4_empty_table_and_fallback.2.2.2 c1Doc (by decide)⟩

theorem lexLe_total : ∀ as bs : List Char, lexLe as bs = true ∨ lexLe bs as = true := by
  intro as
  induction as with
  | nil => intro bs; exact Or.inl rfl
  | cons a as ih =>
    intro bs
    cases bs with
    | nil => exact Or.inr rfl
    | cons b bs2 =>
      rcases lt_trichotomy a b with h | h | h
      · left
        simp [lexLe, h]
      · subst h
        rcases ih bs2 with h2 | h2
        · left
          simp [lexLe, lt_irrefl, h2]
        · right
          simp [lexLe, lt_irrefl, h2]
      · right
        simp [lexLe, h]

theorem lexLe_trans : ∀ as bs cs : List Char,
    lexLe as bs = true → lexLe bs cs = true → lexLe as cs = true := by
  intro as
  induction as with
  | nil => intro bs cs _ _; rfl
  | cons a as ih =>
    intro bs cs h1 h2
    cases bs with
    | nil => simp [lexLe] at h1
    | cons b bs2 =>
      cases cs with
      | nil => simp [lexLe] at h2
      | cons c cs2 =>
        by_cases hab : a < b
        · by_cases hbc : b < c
          · simp [lexLe, lt_trans hab hbc]
          · by_cases hbec : b = c
            · subst hbec
              simp [lexLe, hab]
            · simp [lexLe, hbc, hbec] at h2
        · by_cases haeb : a = b
          · subst haeb
            simp only [lexLe, lt_irrefl, if_false, if_pos rfl] at h1
            by_cases hac : a < c
            · simp [lexLe, hac]
            · by_cases haec : a = c
              · subst haec
                simp only [lexLe, lt_irrefl, if_false, if_pos rfl] at h2 ⊢
                exact ih _ _ h1 h2
              · simp [lexLe, hac, haec] at h2
          · simp [lexLe, hab, haeb] at h1

instance : IsTotal (String × List Json) keyLe :=
  ⟨fun a b => lexLe_total a.1.data b.1.data⟩

instance : IsTrans (String × List Json) keyLe :=
  ⟨fun _ _ _ h1 h2 => lexLe_trans _ _ _ h1 h2⟩

theorem firstPresent_skip : ∀ (pre post : List String) (kvs : List (String × Json))
    (f : String) (v : Json),
    (∀ g ∈ pre, getKV kvs g = none) → getKV kvs f = some v →
    firstPresent (pre ++ f :: post) kvs = some v := by
  intro pre
  induction pre with
  | nil =>
    intro post kvs f v _ hf
    simp [firstPresent, hf]
  | cons g pre ih =>
    intro post kvs f v hnone hf
    have hg : getKV kvs g = none := hnone g (List.mem_cons_self _ _)
    simp only [List.cons_append, firstPresent, hg]
    exact ih post kvs f v (fun g2 hg2 => hnone g2 (List.mem_cons_of_mem _ hg2)) hf

/-- C5: the date of an availability object is resolved from the first
present field of the fixed priority list, and the two-availability payload
groups into the two claimed date buckets in ascending order with the
claimed counts and date range. -/
theorem C5_date_grouping :
    (∀ (kvs : List (String × Json)) (pre post : List String) (f : String)
        (v : Json),
      dateFields = pre ++ f :: post →
      (∀ g ∈ pre, getKV kvs g = none) →
      getKV kvs f = some v →
      resolveDate kvs = dateFromValue v) ∧
    parse_schedule_data c5Payload =
      some (.obj
        [("schedule_data", .arr
            [.obj [("date", .str "2025-10-13"), ("availabilities", .arr [c5ObjA]),
                   ("availability_count", .num 1)],
             .obj [("date", .str "2025-10-14"), ("availabilities", .arr [c5ObjB]),
                   ("availability_count", .num 1)]]),
         ("total_availabilities", .num 2),
         ("total_dates", .num 2),
         ("date_range", .obj [("start", .str "2025-10-13"),
                              ("end", .str "2025-10-14")])]) := by
  constructor
  · intro kvs pre post f v hfields hnone hf
    unfold resolveDate
    rw [hfields, firstPresent_skip pre post kvs f v hnone hf]
  · rfl

/-- Witness for C5: the field-priority conjunct applied to the first
payload object, whose first present field is `Date`. -/
theorem C5_date_grouping_witness :
    resolveDate [("Date", .str "2025-10-13T00:00:00Z"), ("Title", .str "A")] =
      dateFromValue (.str "2025-10-13T00:00:00Z") :=
  C5_date_grouping.1 _ [] ["StartDate", "date", "startDate", "StartTime"]
    "Date" _ rfl (by simp) rfl

theorem insert_uniform {gs : List (String × List Json)} {d : String} {o : Json}
    (h : GroupsUniform gs) (ho : dateKeyOf o = some d) :
    GroupsUniform (insertByDate gs d o) := by
  induction gs with
  | nil =>
    intro g hg
    simp [insertByDate] at hg
    subst hg
    exact ⟨by simp, by intro x hx; simp at hx; subst hx; exact ho⟩
  | cons p rest ih =>
    obtain ⟨k, os⟩ := p
    by_cases hk : k = d
    · subst hk
      intro g hg
      simp only [insertByDate, if_pos rfl] at hg
      rcases List.mem_cons.mp hg with hg | hg
      · subst hg
        refine ⟨by simp, ?_⟩
        intro x hx
        rcases List.mem_append.mp hx with hx | hx
        · exact (h (k, os) (List.mem_cons_self _ _)).2 x hx
        · simp at hx
          subst hx
          exact ho
      · exact h g (List.mem_cons_of_mem _ hg)
    · intro g hg
      simp only [insertByDate, if_neg hk] at hg
      rcases List.mem_cons.mp hg with hg | hg
      · subst hg
        exact h (k, os) (List.mem_cons_self _ _)
      · exact ih (fun g2 hg2 => h g2 (List.mem_cons_of_mem _ hg2)) g hg

theorem insert_keys (gs : List (String × List Json)) (d : String) (o : Json) :
    (insertByDate gs d o).map Prod.fst =
      if d ∈ gs.map Prod.fst then gs.map Prod.fst
      else gs.map Prod.fst ++ [d] := by
  induction gs with
  | nil => simp [insertByDate]
  | cons p rest ih =>
    obtain ⟨k, os⟩ := p
    by_cases hk : k = d
    · subst hk
      simp [insertByDate]
    · simp only [insertByDate, if_neg hk, List.map_cons, ih]
      by_cases hd : d ∈ rest.map Prod.fst
      · rw [if_pos hd, if_pos (List.mem_cons_of_mem _ hd)]
      · rw [if_neg hd, if_neg ?hnm]
        case hnm =>
          rw [List.mem_cons]
          rintro (h | h)
          · exact hk (Eq.symm h)
          · exact hd h
        simp

theorem insert_nodup {gs : List (String × List Json)} {d : String} {o : Json}
    (h : (gs.map Prod.fst).Nodup) :
    ((insertByDate gs d o).map Prod.fst).Nodup := by
  rw [insert_keys]
  split_ifs with hd
  · exact h
  · simp only [List.nodup_append, List.nodup_singleton]
    exact ⟨h, trivial, by simpa using hd⟩

theorem foldl_uniform (os : List Json) :
    ∀ acc, GroupsUniform acc → GroupsUniform (os.foldl stepGroup acc) := by
  induction os with
  | nil => intro acc h; exact h
  | cons o rest ih =>
    intro acc h
    rw [List.foldl_cons]
    apply ih
    unfold stepGroup
    rcases hk : dateKeyOf o with _ | d
    · exact h
    · exact insert_uniform h hk

theorem foldl_keys_nodup (os : List Json) :
    ∀ acc, (acc.map Prod.fst).Nodup → ((os.foldl stepGroup acc).map Prod.fst).Nodup := by
  induction os with
  | nil => intro acc h; exact h
  | cons o rest ih =>
    intro acc h
    rw [List.foldl_cons]
    apply ih
    unfold stepGroup
    rcases hk : dateKeyOf o with _ | d
    · exact h
    · exact insert_nodup h

theorem buildGroups_uniform (os : List Json) : GroupsUniform (buildGroups os) :=
  foldl_uniform os [] (by intro g hg; simp at hg)

theorem buildGroups_nodup (os : List Json) :
    ((buildGroups os).map Prod.fst).Nodup :=
  foldl_keys_nodup os [] (by simp)

theorem foldl_insert_block : ∀ (os2 : List Json) (k : String) (osb : List Json),
    (∀ o ∈ os2, dateKeyOf o = some k) →
    List.foldl stepGroup [(k, osb)] os2 = [(k, osb ++ os2)] := by
  intro os2
  induction os2 with
  | nil => intro k osb _; simp
  | cons o rest ih =>
    intro k osb huni
    rw [List.foldl_cons]
    have hstep : stepGroup [(k, osb)] o = [(k, osb ++ [o])] := by
      unfold stepGroup
      rw [huni o (List.mem_cons_self _ _)]
      simp [insertByDate]
    rw [hstep, ih k (osb ++ [o]) (fun x hx => huni x (List.mem_cons_of_mem _ hx))]
    simp

theorem buildGroups_block {os2 : List Json} {k : String}
    (huni : ∀ o ∈ os2, dateKeyOf o = some k) (hne : os2 ≠ []) :
    buildGroups os2 = [(k, os2)] := by
  cases os2 with
  | nil => exact absurd rfl hne
  | cons o rest =>
    unfold buildGroups
    rw [List.foldl_cons]
    have hstep : stepGroup [] o = [(k, [o])] := by
      unfold stepGroup
      rw [huni o (List.mem_cons_self _ _)]
      rfl
    rw [hstep, foldl_insert_block rest k [o]
      (fun x hx => huni x (List.mem_cons_of_mem _ hx))]
    rfl

theorem foldl_cons_skip : ∀ (ys : List Json) (k : String) (osb : List Json)
    (acc2 : List (String × List Json)),
    (∀ o ∈ ys, ∀ d, dateKeyOf o = some d → d ≠ k) →
    List.foldl stepGroup ((k, osb) :: acc2) ys
      = (k, osb) :: List.foldl stepGroup acc2 ys := by
  intro ys
  induction ys with
  | nil => intro k osb acc2 _; rfl
  | cons y rest ih =>
    intro k osb acc2 hne
    rw [List.foldl_cons, List.foldl_cons]
    have hstep : stepGroup ((k, osb) :: acc2) y = (k, osb) :: stepGroup acc2 y := by
      unfold stepGroup
      rcases hk : dateKeyOf y with _ | d
      · rfl
      · have hdk : d ≠ k := hne y (List.mem_cons_self _ _) d hk
        simp only [insertByDate]
        rw [if_neg (fun h => hdk (Eq.symm h))]
    rw [hstep, ih k osb _ (fun o ho d hd => hne o (List.mem_cons_of_mem _ ho) d hd)]

theorem buildGroups_flatten : ∀ gs : List (String × List Json),
    GroupsUniform gs → ((gs.map Prod.fst).Nodup) →
    buildGroups (concatAll (gs.map Prod.snd)) = gs := by
  intro gs
  induction gs with
  | nil => intro _ _; rfl
  | cons g rest ih =>
    intro huni hnd
    obtain ⟨hne, hg⟩ := huni g (List.mem_cons_self _ _)
    have hflatc : concatAll ((g :: rest).map Prod.snd)
        = g.2 ++ concatAll (rest.map Prod.snd) := rfl
    rw [hflatc]
    unfold buildGroups
    rw [List.foldl_append]
    have hblock : List.foldl stepGroup [] g.2 = [(g.1, g.2)] := by
      have := buildGroups_block hg hne
      unfold buildGroups at this
      exact this
    rw [hblock]
    have hrestne : ∀ o ∈ concatAll (rest.map Prod.snd), ∀ d,
        dateKeyOf o = some d → d ≠ g.1 := by
      intro o ho d hd
      obtain ⟨xs, hxs, hox⟩ := mem_concatAll.mp ho
      obtain ⟨g2, hg2, hxs'⟩ := List.mem_map.mp hxs
      subst hxs'
      have := (huni g2 (List.mem_cons_of_mem _ hg2)).2 o hox
      rw [this] at hd
      injection hd with hd
      subst hd
      intro hcontra
      have hkey : g2.1 ∈ rest.map Prod.fst := List.mem_map_of_mem Prod.fst hg2
      rw [hcontra] at hkey
      simp only [List.map_cons, List.nodup_cons] at hnd
      exact hnd.1 hkey
    rw [foldl_cons_skip _ g.1 g.2 [] hrestne]
    have hrest : List.foldl stepGroup [] (concatAll (rest.map Prod.snd))
        = rest := by
      have := ih (fun g2 hg2 => huni g2 (List.mem_cons_of_mem _ hg2))
        (by simp only [List.map_cons, List.nodup_cons] at hnd; exact hnd.2)
      unfold buildGroups at this
      exact this
    rw [hrest]

/-- C6: date-grouping is idempotent — flattening the grouped, sorted result
by concatenating the groups in order and grouping again reproduces the same
groups in the same order with the same members. -/
theorem C6_grouping_idempotent :
    ∀ avails : List Json, (∀ o ∈ avails, (dateKeyOf o).isSome = true) →
    groupByDate (concatAll ((groupByDate avails).map Prod.snd))
      = groupByDate avails := by
  intro avails _
  have hperm : List.Perm (groupByDate avails) (buildGroups avails) :=
    List.perm_insertionSort keyLe _
  have huni : GroupsUniform (groupByDate avails) := by
    intro g hg
    exact buildGroups_uniform avails g (hperm.mem_iff.mp hg)
  have hnd : ((groupByDate avails).map Prod.fst).Nodup :=
    (hperm.map Prod.fst).nodup_iff.mpr (buildGroups_nodup avails)
  have hsorted : List.Sorted keyLe (groupByDate avails) :=
    List.sorted_insertionSort keyLe _
  unfold groupByDate
  have hflat : buildGroups
      (concatAll ((groupByDate avails).map Prod.snd)) = groupByDate avails :=
    buildGroups_flatten _ huni hnd
  unfold groupByDate at hflat
  rw [hflat]
  exact List.Sorted.insertionSort_eq hsorted

/-- Witness for C6: the theorem applied to the two-object payload list. -/
theorem C6_grouping_idempotent_witness :
    groupByDate (concatAll ((groupByDate [c5ObjA, c5ObjB]).map Prod.snd))
      = groupByDate [c5ObjA, c5ObjB] :=
  C6_grouping_idempotent [c5ObjA, c5ObjB] (by decide)

theorem cbmStep_fold_invariant (sc di : Place → ℝ) :
    ∀ (l : List Place) (init : Option Place × ℝ × Option ℝ),
      l.foldl (cbmStep sc di) init = init ∨
      ∃ q ∈ l, l.foldl (cbmStep sc di) init = (some q, sc q, some (di q)) := by
  intro l
  induction l with
  | nil => intro init; exact Or.inl rfl
  | cons x xs ih =>
    intro init
    rw [List.foldl_cons]
    rcases ih (cbmStep sc di init x) with h | ⟨q, hq, h⟩
    · rw [h]
      unfold cbmStep
      split_ifs
      · exact Or.inr ⟨x, List.mem_cons_self _ _, rfl⟩
      · exact Or.inl rfl
    · exact Or.inr ⟨q, List.mem_cons_of_mem _ hq, h⟩

theorem cbmStep_fold_mono (sc di : Place → ℝ) :
    ∀ (l : List Place) (init : Option Place × ℝ × Option ℝ),
      init.2.1 ≤ (l.foldl (cbmStep sc di) init).2.1 := by
  intro l
  induction l with
  | nil => intro init; exact le_refl _
  | cons x xs ih =>
    intro init
    rw [List.foldl_cons]
    refine le_trans ?_ (ih (cbmStep sc di init x))
    unfold cbmStep
    split_ifs with h
    · exact le_of_lt h
    · exact le_refl _

theorem cbmStep_fold_ge (sc di : Place → ℝ) :
    ∀ (l : List Place) (init : Option Place × ℝ × Option ℝ), ∀ q ∈ l,
      sc q ≤ (l.foldl (cbmStep sc di) init).2.1 := by
  intro l
  induction l with
  | nil => intro init q hq; simp at hq
  | cons x xs ih =>
    intro init q hq
    rw [List.foldl_cons]
    rcases List.mem_cons.mp hq with hq | hq
    · subst hq
      refine le_trans ?_ (cbmStep_fold_mono sc di xs (cbmStep sc di init q))
      unfold cbmStep
      split_ifs with h
      · exact le_refl _
      · exact le_of_not_lt h
    · exact ih _ q hq

/-- `choose_best_match` either reports no match as `(None, 0, None)` or
returns some candidate together with its own score and distance, and that
score bounds every candidate's score. -/
theorem choose_spec (fuzz : String → String → ℝ) (osm : Option String)
    (lat lng : ℝ) (cands : List Place) (pd : Bool)
    (pt? av? : Option (List String)) :
    choose_best_match fuzz osm lat lng cands pd pt? av? = (none, 0, none) ∨
    ∃ q ∈ cands,
      choose_best_match fuzz osm lat lng cands pd pt? av?
        = (some q,
           candScore fuzz (norm_name osm) lat lng pd
             (pt?.getD defaultPreferTypes) (av?.getD defaultAvoidTerms) q,
           some (candDistance lat lng q)) ∧
      ∀ p ∈ cands,
        candScore fuzz (norm_name osm) lat lng pd
            (pt?.getD defaultPreferTypes) (av?.getD defaultAvoidTerms) p ≤
          candScore fuzz (norm_name osm) lat lng pd
            (pt?.getD defaultPreferTypes) (av?.getD defaultAvoidTerms) q := by
  unfold choose_best_match
  dsimp only
  rcases cbmStep_fold_invariant
      (candScore fuzz (norm_name osm) lat lng pd (pt?.getD defaultPreferTypes)
        (av?.getD defaultAvoidTerms))
      (candDistance lat lng) cands (none, -1.0, none) with h | ⟨q, hq, h⟩
  · rw [h]
    exact Or.inl rfl
  · rw [h]
    right
    refine ⟨q, hq, rfl, ?_⟩
    intro p hp
    have := cbmStep_fold_ge
      (candScore fuzz (norm_name osm) lat lng pd (pt?.getD defaultPreferTypes)
        (av?.getD defaultAvoidTerms))
      (candDistance lat lng) cands (none, -1.0, none) p hp
    rw [h] at this
    exact this

theorem haversine_nonneg (lat1 lon1 lat2 lon2 : ℝ) :
    0 ≤ haversine_m lat1 lon1 lat2 lon2 := by
  unfold haversine_m
  have harc : 0 ≤ Real.arcsin (Real.sqrt
      (Real.sin (radians (lat2 - lat1) / 2) ^ 2 +
        Real.cos (radians lat1) * Real.cos (radians lat2) *
          Real.sin (radians (lon2 - lon1) / 2) ^ 2)) :=
    Real.arcsin_nonneg.mpr (Real.sqrt_nonneg _)
  positivity

theorem dist_score_nonneg (lat lng : ℝ) (p : Place) :
    0 ≤ dist_score lat lng p := le_max_left _ _

theorem dist_score_le_100 (lat lng : ℝ) (p : Place) :
    dist_score lat lng p ≤ 100 := by
  unfold dist_score
  have h0 : 0 ≤ candDistance lat lng p := haversine_nonneg _ _ _ _
  have hmin : 0 ≤ min (candDistance lat lng p) 120.0 := le_min h0 (by norm_num)
  rw [max_le_iff]
  constructor
  · norm_num
  · nlinarith

theorem dist_score_far {lat lng : ℝ} {p : Place}
    (h : 120 ≤ candDistance lat lng p) : dist_score lat lng p = 0 := by
  unfold dist_score
  rw [min_eq_right (by norm_num [h] : (120.0 : ℝ) ≤ candDistance lat lng p)]
  norm_num

theorem dist_score_zero {lat lng : ℝ} {p : Place}
    (h : candDistance lat lng p = 0) : dist_score lat lng p = 100 := by
  unfold dist_score
  rw [h]
  rw [min_eq_left (by norm_num)]
  norm_num

/-- With distance-preferred scoring, every total score lies between
`dist_score − 10` and `dist_score + 20`. -/
theorem candScore_pd_bounds (fuzz : String → String → ℝ) (base : String)
    (lat lng : ℝ) (pt av : List String) (p : Place) :
    dist_score lat lng p - 10 ≤ candScore fuzz base lat lng true pt av p ∧
    candScore fuzz base lat lng true pt av p ≤ dist_score lat lng p + 20 := by
  unfold candScore
  dsimp only
  rw [if_pos rfl]
  split_ifs <;> constructor <;> linarith

theorem haversine_self : haversine_m 0 0 0 0 = 0 := by
  unfold haversine_m radians
  dsimp only
  norm_num

theorem haversine_antipodal : haversine_m 0 0 0 180 = 6371000 * Real.pi := by
  unfold haversine_m radians
  dsimp only
  have h180 : ((180 : ℝ) - 0) * Real.pi / 180 = Real.pi := by ring
  rw [h180]
  norm_num [Real.sin_pi_div_two, Real.arcsin_one]
  ring

/-- C8: a candidate at distance 0 whose normalized name equals the
normalized source name scores at least the default threshold 70, scores
strictly above every candidate past the 400 m hard-reject radius, and no
such far candidate can be the selected best match in its presence
(`choose_best_match` with its defaults: distance-preferred scoring and the
default preference sets). -/
theorem C8_zero_distance_dominates
    (fuzz : String → String → ℝ) (osm : Option String) (lat lng : ℝ)
    (cands : List Place) (p : Place)
    (hp : p ∈ cands)
    (hd : candDistance lat lng p = 0)
    (_hn : norm_name p.displayNameText? = norm_name osm) :
    70 ≤ candScore fuzz (norm_name osm) lat lng true defaultPreferTypes
        defaultAvoidTerms p ∧
    (∀ q ∈ cands, 400 < candDistance lat lng q →
      candScore fuzz (norm_name osm) lat lng true defaultPreferTypes
          defaultAvoidTerms q <
        candScore fuzz (norm_name osm) lat lng true defaultPreferTypes
          defaultAvoidTerms p) ∧
    (∀ q ∈ cands, 400 < candDistance lat lng q →
      (choose_best_match fuzz osm lat lng cands true none none).1 ≠ some q) := by
  have hds : dist_score lat lng p = 100 := dist_score_zero hd
  have hbp := candScore_pd_bounds fuzz (norm_name osm) lat lng
    defaultPreferTypes defaultAvoidTerms p
  rw [hds] at hbp
  have hp70 : 70 ≤ candScore fuzz (norm_name osm) lat lng true
      defaultPreferTypes defaultAvoidTerms p := by linarith [hbp.1]
  have hfarlt : ∀ q ∈ cands, 400 < candDistance lat lng q →
      candScore fuzz (norm_name osm) lat lng true defaultPreferTypes
          defaultAvoidTerms q <
        candScore fuzz (norm_name osm) lat lng true defaultPreferTypes
          defaultAvoidTerms p := by
    intro q _ hfar
    have hdq : dist_score lat lng q = 0 := dist_score_far (by linarith)
    have hbq := candScore_pd_bounds fuzz (norm_name osm) lat lng
      defaultPreferTypes defaultAvoidTerms q
    rw [hdq] at hbq
    linarith [hbq.2, hbp.1]
  refine ⟨hp70, hfarlt, ?_⟩
  intro q hq hfar hcontra
  rcases choose_spec fuzz osm lat lng cands true none none with
    hE | ⟨q2, _, hE, hbound⟩
  · rw [hE] at hcontra
    simp at hcontra
  · simp only [Option.getD_none] at hE hbound
    rw [hE] at hcontra
    dsimp only at hcontra
    injection hcontra with hq2q
    subst hq2q
    have h1 := hbound p hp
    have h2 := hfarlt q2 hq hfar
    linarith

/-- C7: whenever the best candidate's distance exceeds the default 400 m
hard-reject radius, the enrichment step leaves the source record unchanged
(the quantification over `fuzz` covers a perfect name score of 100). -/
theorem C7_hard_reject (fuzz : String → String → ℝ)
    (details : String → PlaceDetails) (r : SourceRecord) (cands : List Place)
    (m : ℝ)
    (hm : (choose_best_match fuzz r.name r.lat r.lon cands true (some [])
        (some [])).2.2 = some m)
    (hfar : 400 < m) :
    enrichRecord fuzz details 70 200 400 true none none r cands = r := by
  unfold enrichRecord
  dsimp only
  simp only [Option.getD_none]
  rcases choose_spec fuzz r.name r.lat r.lon cands true (some []) (some [])
    with hE | ⟨q, _, hE, _⟩
  · rw [hE] at hm
    simp at hm
  · simp only [Option.getD_some] at hE
    rw [hE] at hm ⊢
    dsimp only at hm ⊢
    injection hm with hm
    rw [hm]
    rw [if_neg (by linarith), if_pos (by linarith)]

/-- C10: on an empty candidate list the matcher returns
`(None, 0, None)` rather than raising, and the enrichment step appends the
source record unchanged. -/
theorem C10_empty_candidates (fuzz : String → String → ℝ)
    (details : String → PlaceDetails)
    (threshold accept_within_m hard_reject_over_m : ℝ) (pd : Bool)
    (pt? av? : Option (List String)) (r : SourceRecord) :
    (∀ (osm : Option String) (lat lng : ℝ),
      choose_best_match fuzz osm lat lng [] pd pt? av? = (none, 0, none)) ∧
    enrichRecord fuzz details threshold accept_within_m hard_reject_over_m
      pd pt? av? r [] = r := by
  constructor
  · intro osm lat lng
    rfl
  · rfl

theorem farPlace_distance : candDistance 0 0 farPlace = 6371000 * Real.pi := by
  have h : candDistance 0 0 farPlace = haversine_m 0 0 0 180 := rfl
  rw [h, haversine_antipodal]

theorem farPlace_far : (400 : ℝ) < candDistance 0 0 farPlace := by
  rw [farPlace_distance]
  nlinarith [Real.pi_gt_three]

/-- Witness for C8: the zero-distance same-name candidate scores ≥ 70 and
the antipodal candidate is never selected in its presence. -/
theorem C8_zero_distance_dominates_witness :
    70 ≤ candScore fuzz100 (norm_name (some "Ray Park")) 0 0 true
        defaultPreferTypes defaultAvoidTerms nearPlace ∧
    (choose_best_match fuzz100 (some "Ray Park") 0 0 [nearPlace, farPlace]
        true none none).1 ≠ some farPlace := by
  have hd : candDistance 0 0 nearPlace = 0 := by
    have h : candDistance 0 0 nearPlace = haversine_m 0 0 0 0 := rfl
    rw [h, haversine_self]
  have h := C8_zero_distance_dominates fuzz100 (some "Ray Park") 0 0
    [nearPlace, farPlace] nearPlace (List.mem_cons_self _ _) hd rfl
  exact ⟨h.1, h.2.2 farPlace (List.mem_cons_of_mem _ (List.mem_cons_self _ _))
    farPlace_far⟩

theorem candScore_pd_empty_avoid_nonneg (fuzz : String → String → ℝ)
    (base : String) (lat lng : ℝ) (pt : List String) (p : Place) :
    0 ≤ candScore fuzz base lat lng true pt [] p := by
  unfold candScore
  dsimp only
  rw [if_pos rfl]
  simp only [List.any_nil, Bool.false_eq_true, if_false]
  have h0 := dist_score_nonneg lat lng p
  split_ifs <;> linarith

theorem c7_choose_meters :
    (choose_best_match fuzz100 (some "Ray Park") 0 0 [farPlace] true (some [])
        (some [])).2.2 = some (candDistance 0 0 farPlace) := by
  have hscore : ((none : Option Place), (-1.0 : ℝ), (none : Option ℝ)).2.1 <
      candScore fuzz100 (norm_name (some "Ray Park")) 0 0 true [] [] farPlace := by
    have hge := candScore_pd_empty_avoid_nonneg fuzz100
      (norm_name (some "Ray Park")) 0 0 [] farPlace
    dsimp only
    norm_num
    linarith
  unfold choose_best_match
  dsimp only
  simp only [Option.getD_some]
  rw [List.foldl_cons, List.foldl_nil]
  unfold cbmStep
  rw [if_pos hscore]
  rfl

/-- Witness for C7: the single antipodal candidate is hard-rejected and the
record passes through unchanged, even though the name scorer returns a
perfect 100. -/
theorem C7_hard_reject_witness :
    enrichRecord fuzz100 noDetails 70 200 400 true none none c7Rec [farPlace]
      = c7Rec :=
  C7_hard_reject fuzz100 noDetails c7Rec [farPlace] (candDistance 0 0 farPlace)
    c7_choose_meters farPlace_far
